import Mathlib

/-!
Shallow embedding of the Library-api repository (Flask + SQLAlchemy):
`database.py` defines the tables `User`, `Book`, `Loan`, `AuditLog`;
`app.py` defines the request handlers; `audit.py` appends audit rows.

Modelling conventions:
* Times (`datetime.utcnow()`) are whole seconds as `Int`; `timedelta.days`
  of a positive difference is floor division by 86400, as in Python.
* Money is exact in the source (multiples of $0.50 are exact IEEE doubles);
  we carry fines in integer cents, so $0.50 is 50 and the $25.00 cap is 2500.
* Database tables are association lists `List (Nat × row)` keyed by the
  autoincrement primary key, which starts at 1; `Model.query.get` is
  `keyFind`, a row update is `keyUpdate`, an insert appends.
* A handler is a function returning `Except LibError ...`; an error response
  (4xx, or an integrity error raised at flush time by a `unique=True`
  column) leaves the database untouched because the session is never
  committed, so the error branch simply carries no state.
* `AuditLog.timestamp`, `details` and `ip_address` are recorded by
  `audit.log_audit` but no property below constrains them, so the embedded
  audit row keeps `action`, `entity_type`, `entity_id` and `user_id`.
-/

namespace Library

/-- A UTC instant, in whole seconds. -/
abbrev Time := Int

/-- From `database.py`: the `Book` table (`id` is the association-list key). -/
structure Book where
  title : String
  author : String
  isbn : String
  total_copies : Int
  available_copies : Int
deriving Repr, DecidableEq

/-- From `database.py`: the `User` table (`created_at` unused by any handler logic). -/
structure User where
  username : String
  email : String
  phone : String
  role : String
deriving Repr, DecidableEq

/-- From `database.py`: the `Loan` table. `fine` is in cents (default 0). -/
structure Loan where
  user_id : Nat
  book_id : Nat
  loan_date : Time
  due_date : Time
  return_date : Option Time
  fine : Nat
deriving Repr, DecidableEq

/-- The `AuditAction` constants of `audit.py`: the stable action vocabulary. -/
inductive AuditAction where
  | user_created
  | book_created
  | book_updated
  | loan_created
  | loan_returned
  | fine_calculated
  | loan_overdue
deriving Repr, DecidableEq

/-- From `database.py`: the `AuditLog` table (see file header for omitted columns). -/
structure AuditEntry where
  action : AuditAction
  entity_type : String
  entity_id : Nat
  user_id : Option Nat
deriving Repr, DecidableEq

/-- The whole database: the four tables plus the next autoincrement ids. -/
structure LibState where
  users : List (Nat × User)
  books : List (Nat × Book)
  loans : List (Nat × Loan)
  audit : List AuditEntry
  nextUserId : Nat
  nextBookId : Nat
  nextLoanId : Nat
deriving Repr, DecidableEq

/-- A freshly created database: empty tables, autoincrement counters at 1. -/
def initState : LibState := ⟨[], [], [], [], 1, 1, 1⟩

/-- Embeds `Model.query.get(id)`: first row with the given primary key. -/
def keyFind {α : Type} (l : List (Nat × α)) (id : Nat) : Option α :=
  (l.find? (fun p => p.1 == id)).map Prod.snd

/-- Row update: replace the row(s) with the given primary key. -/
def keyUpdate {α : Type} (l : List (Nat × α)) (id : Nat) (a : α) : List (Nat × α) :=
  l.map (fun p => if p.1 == id then (id, a) else p)

def findUser (s : LibState) (uid : Nat) : Option User := keyFind s.users uid

def findBook (s : LibState) (bid : Nat) : Option Book := keyFind s.books bid

def findLoan (s : LibState) (lid : Nat) : Option Loan := keyFind s.loans lid

/-- Embeds `Loan.query.filter_by(user_id=uid, return_date=None).count()`. -/
def countActiveLoans (s : LibState) (uid : Nat) : Nat :=
  s.loans.countP (fun p => p.2.user_id == uid && p.2.return_date.isNone)

/-- Active loans referencing a given book (not queried directly by the
handlers, but it is the quantity `total_copies - available_copies` tracks). -/
def activeLoansForBook (loans : List (Nat × Loan)) (bid : Nat) : Nat :=
  loans.countP (fun p => p.2.book_id == bid && p.2.return_date.isNone)

/-- The error taxonomy the handlers surface (as 4xx responses, or as an
integrity error raised by a `unique=True` column at flush time). -/
inductive LibError where
  | validation : String → LibError
  | notFound : String → LibError
  | conflict : String → LibError
  | loanLimit : Nat → Nat → LibError
  | noCopies : Int → Int → LibError
  | alreadyReturned : Nat → LibError
deriving Repr, DecidableEq

/-- Embeds `audit.log_audit`: append one audit row in the current session. -/
def log_audit (s : LibState) (action : AuditAction) (entity_type : String)
    (entity_id : Nat) (user_id : Option Nat) : LibState :=
  { s with audit := s.audit ++ [⟨action, entity_type, entity_id, user_id⟩] }

/-- Embeds `app.create_user` (POST /users): validate presence of the fields, insert
(the `unique=True` columns on username/email/phone reject duplicates at
flush), audit, return the new id. -/
def create_user (s : LibState) (username email phone role : String) :
    Except LibError (Nat × LibState) :=
  if username = "" ∨ email = "" ∨ phone = "" then
    .error (.validation "Missing required fields")
  else if s.users.any (fun p =>
      p.2.username == username || p.2.email == email || p.2.phone == phone) then
    .error (.conflict "duplicate user column")
  else
    let uid := s.nextUserId
    let s1 : LibState :=
      { s with users := s.users ++ [(uid, ⟨username, email, phone, role⟩)],
               nextUserId := uid + 1 }
    .ok (uid, log_audit s1 .user_created "user" uid none)

/-- Embeds `app.create_book` (POST /books): validate presence, insert with
`total_copies = available_copies = 1` (the column defaults), audit.
The `unique=True` column on `isbn` rejects a duplicate isbn at flush. -/
def create_book (s : LibState) (title author isbn : String) :
    Except LibError (Nat × LibState) :=
  if title = "" ∨ author = "" ∨ isbn = "" then
    .error (.validation "Missing required fields")
  else if s.books.any (fun p => p.2.isbn == isbn) then
    .error (.conflict "duplicate isbn")
  else
    let bid := s.nextBookId
    let s1 : LibState :=
      { s with books := s.books ++ [(bid, ⟨title, author, isbn, 1, 1⟩)],
               nextBookId := bid + 1 }
    .ok (bid, log_audit s1 .book_created "book" bid none)

/-- Embeds `app.update_book_copies` (PATCH /books/id): the resize operation.
Checks, in source order: `total_copies < 0`, book existence, and
`total_copies < books_on_loan`; then shifts `available_copies` by the
delta and sets `total_copies`. -/
def update_book_copies (s : LibState) (book_id : Nat) (total_copies : Int) :
    Except LibError LibState :=
  if total_copies < 0 then
    .error (.validation "Total copies cannot be negative")
  else
    match findBook s book_id with
    | none => .error (.notFound "book")
    | some book =>
      let books_on_loan := book.total_copies - book.available_copies
      if total_copies < books_on_loan then
        .error (.validation "Total copies cannot be less than copies on loan")
      else
        let book' : Book :=
          { book with
            available_copies := book.available_copies + (total_copies - book.total_copies),
            total_copies := total_copies }
        let s1 : LibState := { s with books := keyUpdate s.books book_id book' }
        .ok (log_audit s1 .book_updated "book" book_id none)

/-- The loan period `timedelta(days=14)`, in seconds. -/
def loanPeriod : Int := 14 * 86400

/-- The fine formula in cents: `min(days_overdue * 0.50, 25.00)`. -/
def fineCents (days_overdue : Nat) : Nat := min (days_overdue * 50) 2500

/-- The local `fine` variable of `return_book`: 0 unless `return_date`
(here `now`) is strictly past `due_date`. -/
def returnFine (loan : Loan) (now : Time) : Nat :=
  if loan.due_date < now then fineCents ((now - loan.due_date).toNat / 86400) else 0

/-- The loan row as written back by `return_book`: `return_date` set to
`now`, and `fine` overwritten only in the overdue branch. -/
def returnedLoan (loan : Loan) (now : Time) : Loan :=
  { loan with return_date := some now,
              fine := if loan.due_date < now then
                fineCents ((now - loan.due_date).toNat / 86400) else loan.fine }

/-- Embeds `app.create_loan` (POST /loans). In source order: the falsy check on the
raw ids (`not user_id or not book_id`, so id 0 is rejected as missing),
user lookup, book lookup, the 5-active-loans cap, the availability check;
then insert the loan with `due_date = now + 14 days`, decrement
`available_copies`, audit. -/
def create_loan (s : LibState) (user_id book_id : Nat) (now : Time) :
    Except LibError (Nat × LibState) :=
  if user_id = 0 ∨ book_id = 0 then
    .error (.validation "Missing required fields")
  else
    match findUser s user_id with
    | none => .error (.notFound "user")
    | some _ =>
      match findBook s book_id with
      | none => .error (.notFound "book")
      | some book =>
        let active_loans_count := countActiveLoans s user_id
        if active_loans_count ≥ 5 then
          .error (.loanLimit active_loans_count 5)
        else if book.available_copies ≤ 0 then
          .error (.noCopies 0 book.total_copies)
        else
          let lid := s.nextLoanId
          let new_loan : Loan := ⟨user_id, book_id, now, now + loanPeriod, none, 0⟩
          let book' : Book := { book with available_copies := book.available_copies - 1 }
          let s1 : LibState :=
            { s with books := keyUpdate s.books book_id book',
                     loans := s.loans ++ [(lid, new_loan)],
                     nextLoanId := lid + 1 }
          .ok (lid, log_audit s1 .loan_created "loan" lid (some user_id))

/-- Embeds `app.return_book` (PATCH /loans/id/return). In source order: loan lookup,
the already-returned guard, book lookup; set `return_date = now`; if
`return_date > due_date` compute `days_overdue = (return_date - due_date).days`
and `fine = min(days_overdue * 0.50, 25.00)` and store it on the loan;
increment `available_copies` (no upper clamp in the source); emit a
`loan_returned` audit row, and a second `fine_calculated` row iff `fine > 0`. -/
def return_book (s : LibState) (loan_id : Nat) (now : Time) :
    Except LibError LibState :=
  match findLoan s loan_id with
  | none => .error (.notFound "loan")
  | some loan =>
    if loan.return_date.isSome then
      .error (.alreadyReturned loan_id)
    else
      match findBook s loan.book_id with
      | none => .error (.notFound "book")
      | some book =>
        let return_date := now
        let overdue := loan.due_date < return_date
        let days_overdue := if overdue then (return_date - loan.due_date).toNat / 86400 else 0
        let fine := if overdue then fineCents days_overdue else 0
        let loan' : Loan :=
          { loan with return_date := some return_date,
                      fine := if overdue then fine else loan.fine }
        let book' : Book := { book with available_copies := book.available_copies + 1 }
        let s1 : LibState :=
          { s with loans := keyUpdate s.loans loan_id loan',
                   books := keyUpdate s.books loan.book_id book' }
        let s2 := log_audit s1 .loan_returned "loan" loan_id (some loan.user_id)
        let s3 := if 0 < fine then
            log_audit s2 .fine_calculated "loan" loan_id (some loan.user_id)
          else s2
        .ok s3

/-- The loan-specific fields of the GET /loans/id response. -/
structure LoanView where
  loan_date : Time
  due_date : Time
  return_date : Option Time
  fine : Nat
  is_overdue : Bool
  is_returned : Bool
  days_overdue : Nat
  current_fine : Nat
deriving Repr, DecidableEq

/-- Embeds `app.get_loan` (GET /loans/id): read-only; the live overdue preview is
computed only when `return_date is None and due_date < utcnow()`, otherwise
`is_overdue` stays false, `days_overdue` stays 0 and `current_fine` is the
persisted `loan.fine`. -/
def get_loan (s : LibState) (loan_id : Nat) (now : Time) :
    Except LibError LoanView :=
  match findLoan s loan_id with
  | none => .error (.notFound "loan")
  | some loan =>
    if loan.return_date = none ∧ loan.due_date < now then
      let days_overdue := (now - loan.due_date).toNat / 86400
      .ok ⟨loan.loan_date, loan.due_date, loan.return_date, loan.fine,
           true, loan.return_date.isSome, days_overdue, fineCents days_overdue⟩
    else
      .ok ⟨loan.loan_date, loan.due_date, loan.return_date, loan.fine,
           false, loan.return_date.isSome, 0, loan.fine⟩

/-- One state-mutating request handled successfully. Read-only handlers
(GET endpoints, including `get_loan`) never change the database. -/
inductive Step : LibState → LibState → Prop where
  | user {s s' : LibState} {u e p r : String} {uid : Nat} :
      create_user s u e p r = .ok (uid, s') → Step s s'
  | book {s s' : LibState} {t a i : String} {bid : Nat} :
      create_book s t a i = .ok (bid, s') → Step s s'
  | resize {s s' : LibState} {bid : Nat} {n : Int} :
      update_book_copies s bid n = .ok s' → Step s s'
  | loan {s s' : LibState} {uid bid : Nat} {now : Time} {lid : Nat} :
      create_loan s uid bid now = .ok (lid, s') → Step s s'
  | ret {s s' : LibState} {lid : Nat} {now : Time} :
      return_book s lid now = .ok s' → Step s s'

/-- Database states reachable from a fresh database by handled requests. -/
inductive Reachable : LibState → Prop where
  | init : Reachable initState
  | step {s s' : LibState} : Reachable s → Step s s' → Reachable s'

/-- The inductive invariant of the database: primary keys are distinct and
below the autoincrement counters, loans reference keys below the book
counter, every book satisfies `0 ≤ available_copies` and
`available_copies + #(active loans of the book) = total_copies`, and no
user holds more than 5 active loans. -/
def Inv (s : LibState) : Prop :=
  (s.books.map Prod.fst).Nodup ∧
  (s.loans.map Prod.fst).Nodup ∧
  (∀ p ∈ s.books, p.1 < s.nextBookId) ∧
  (∀ p ∈ s.loans, p.1 < s.nextLoanId) ∧
  (∀ p ∈ s.loans, p.2.book_id < s.nextBookId) ∧
  (∀ p ∈ s.books, 0 ≤ p.2.available_copies ∧
      p.2.available_copies + (activeLoansForBook s.loans p.1 : Int) = p.2.total_copies) ∧
  (∀ uid : Nat, countActiveLoans s uid ≤ 5)

/-- The database after `create_user initState "alice" "alice@example.com"
"555" "patron"`. -/
def exStateU : LibState :=
  ⟨[(1, ⟨"alice", "alice@example.com", "555", "patron"⟩)], [], [],
   [⟨.user_created, "user", 1, none⟩], 2, 1, 1⟩

/-- State `exStateU` after `create_book _ "Dune" "Herbert" "isbn-1"`. -/
def exStateB : LibState :=
  ⟨[(1, ⟨"alice", "alice@example.com", "555", "patron"⟩)],
   [(1, ⟨"Dune", "Herbert", "isbn-1", 1, 1⟩)], [],
   [⟨.user_created, "user", 1, none⟩, ⟨.book_created, "book", 1, none⟩], 2, 2, 1⟩

/-- State `exStateB` after `create_loan _ 1 1 0` (loan 1 due at `loanPeriod`). -/
def exStateL : LibState :=
  ⟨[(1, ⟨"alice", "alice@example.com", "555", "patron"⟩)],
   [(1, ⟨"Dune", "Herbert", "isbn-1", 1, 0⟩)],
   [(1, ⟨1, 1, 0, 1209600, none, 0⟩)],
   [⟨.user_created, "user", 1, none⟩, ⟨.book_created, "book", 1, none⟩,
    ⟨.loan_created, "loan", 1, some 1⟩], 2, 2, 2⟩

/-- A database holding one book with 3 total copies of which 1 is on loan
(`available_copies = 2`), for the resize scenario. -/
def resizeState : LibState :=
  ⟨[(1, ⟨"alice", "alice@example.com", "555", "patron"⟩)],
   [(1, ⟨"Dune", "Herbert", "isbn-1", 3, 2⟩)],
   [(1, ⟨1, 1, 0, 1209600, none, 0⟩)], [], 2, 2, 2⟩

/-- A database in which book 1 already has `available_copies = total_copies
= 1` while loan 1 on it is still marked active: returning that loan drives
`available_copies` above `total_copies`, since the source has no clamp. -/
def overState : LibState :=
  ⟨[(1, ⟨"alice", "alice@example.com", "555", "patron"⟩)],
   [(1, ⟨"Dune", "Herbert", "isbn-1", 1, 1⟩)],
   [(1, ⟨1, 1, 0, 100, none, 0⟩)], [], 2, 2, 2⟩

/-- A database with an active loan of book 1 due at time 0; returning it at
time 3600 (one hour past due) is overdue yet yields `days_overdue = 0` and
fine 0. -/
def lateState : LibState :=
  ⟨[(1, ⟨"alice", "alice@example.com", "555", "patron"⟩)],
   [(1, ⟨"Dune", "Herbert", "isbn-1", 1, 0⟩)],
   [(1, ⟨1, 1, -1209600, 0, none, 0⟩)], [], 2, 2, 2⟩

/-- State `exStateL` after `return_book _ 1 1641600`: loan 1 is 5 whole days past
its due date 1209600, so the finalized fine is 250 cents and a second
`fine_calculated` audit entry is emitted. -/
def exStateLR : LibState :=
  ⟨[(1, ⟨"alice", "alice@example.com", "555", "patron"⟩)],
   [(1, ⟨"Dune", "Herbert", "isbn-1", 1, 1⟩)],
   [(1, ⟨1, 1, 0, 1209600, some 1641600, 250⟩)],
   [⟨.user_created, "user", 1, none⟩, ⟨.book_created, "book", 1, none⟩,
    ⟨.loan_created, "loan", 1, some 1⟩, ⟨.loan_returned, "loan", 1, some 1⟩,
    ⟨.fine_calculated, "loan", 1, some 1⟩], 2, 2, 2⟩

/-- State `overState` after `return_book _ 1 0`: the unclamped increment leaves
`available_copies = 2 > total_copies = 1`. -/
def overStateR : LibState :=
  ⟨[(1, ⟨"alice", "alice@example.com", "555", "patron"⟩)],
   [(1, ⟨"Dune", "Herbert", "isbn-1", 1, 2⟩)],
   [(1, ⟨1, 1, 0, 100, some 0, 0⟩)],
   [⟨.loan_returned, "loan", 1, some 1⟩], 2, 2, 2⟩

/-- State `lateState` after `return_book _ 1 3600`: overdue by one hour, so
`days_overdue = 0`, fine 0, and only the single `loan_returned` entry. -/
def lateStateR : LibState :=
  ⟨[(1, ⟨"alice", "alice@example.com", "555", "patron"⟩)],
   [(1, ⟨"Dune", "Herbert", "isbn-1", 1, 1⟩)],
   [(1, ⟨1, 1, -1209600, 0, some 3600, 0⟩)],
   [⟨.loan_returned, "loan", 1, some 1⟩], 2, 2, 2⟩

section ListLemmas

variable {α : Type}

theorem keyFind_nil (id : Nat) : keyFind ([] : List (Nat × α)) id = none := rfl

theorem keyFind_cons (k : Nat) (a : α) (l : List (Nat × α)) (id : Nat) :
    keyFind ((k, a) :: l) id = if k = id then some a else keyFind l id := by
  by_cases h : k = id <;> simp [keyFind, List.find?_cons, h]

theorem keyFind_append_left {l m : List (Nat × α)} {id : Nat} {a : α}
    (h : keyFind l id = some a) : keyFind (l ++ m) id = some a := by
  induction l with
  | nil => simp [keyFind_nil] at h
  | cons hd tl ih =>
    obtain ⟨k, b⟩ := hd
    rw [List.cons_append, keyFind_cons]
    rw [keyFind_cons] at h
    by_cases hk : k = id
    · simpa [hk] using h
    · rw [if_neg hk] at h ⊢
      exact ih h

theorem keyFind_append_right {l : List (Nat × α)} {id : Nat}
    (h : keyFind l id = none) (m : List (Nat × α)) :
    keyFind (l ++ m) id = keyFind m id := by
  induction l with
  | nil => simp
  | cons hd tl ih =>
    obtain ⟨k, b⟩ := hd
    rw [keyFind_cons] at h
    by_cases hk : k = id
    · rw [if_pos hk] at h; cases h
    · rw [if_neg hk] at h
      rw [List.cons_append, keyFind_cons, if_neg hk]
      exact ih h

theorem keyFind_eq_none {l : List (Nat × α)} {id : Nat}
    (h : ∀ p ∈ l, p.1 ≠ id) : keyFind l id = none := by
  induction l with
  | nil => rfl
  | cons hd tl ih =>
    obtain ⟨k, b⟩ := hd
    rw [keyFind_cons, if_neg (h (k, b) (by simp))]
    exact ih fun p hp => h p (by simp [hp])

theorem keyFind_mem {l : List (Nat × α)} {id : Nat} {a : α}
    (h : keyFind l id = some a) : (id, a) ∈ l := by
  induction l with
  | nil => simp [keyFind_nil] at h
  | cons hd tl ih =>
    obtain ⟨k, b⟩ := hd
    rw [keyFind_cons] at h
    by_cases hk : k = id
    · rw [if_pos hk] at h
      cases h
      subst hk
      exact List.mem_cons_self _ _
    · rw [if_neg hk] at h
      exact List.mem_cons_of_mem _ (ih h)

theorem keyUpdate_cons (k : Nat) (a : α) (l : List (Nat × α)) (id : Nat) (b : α) :
    keyUpdate ((k, a) :: l) id b =
      (if k = id then (id, b) else (k, a)) :: keyUpdate l id b := by
  by_cases h : k = id <;> simp [keyUpdate, h]

theorem keyUpdate_map_fst (l : List (Nat × α)) (id : Nat) (a : α) :
    (keyUpdate l id a).map Prod.fst = l.map Prod.fst := by
  induction l with
  | nil => rfl
  | cons hd tl ih =>
    obtain ⟨k, b⟩ := hd
    rw [keyUpdate_cons]
    by_cases h : k = id <;> simp [h, ih]

theorem keyFind_keyUpdate_self {l : List (Nat × α)} {id : Nat} {b : α}
    (h : keyFind l id = some b) (a : α) :
    keyFind (keyUpdate l id a) id = some a := by
  induction l with
  | nil => simp [keyFind_nil] at h
  | cons hd tl ih =>
    obtain ⟨k, c⟩ := hd
    rw [keyFind_cons] at h
    rw [keyUpdate_cons]
    by_cases hk : k = id
    · rw [if_pos hk, keyFind_cons, if_pos rfl]
    · rw [if_neg hk] at h
      rw [if_neg hk, keyFind_cons, if_neg hk]
      exact ih h

theorem keyFind_keyUpdate_ne {l : List (Nat × α)} {id j : Nat} (a : α)
    (h : j ≠ id) : keyFind (keyUpdate l id a) j = keyFind l j := by
  induction l with
  | nil => rfl
  | cons hd tl ih =>
    obtain ⟨k, c⟩ := hd
    rw [keyUpdate_cons]
    by_cases hk : k = id
    · rw [if_pos hk, keyFind_cons, keyFind_cons, if_neg (fun hh => h hh.symm),
        if_neg (fun hh => h (hk ▸ hh).symm)]
      exact ih
    · rw [if_neg hk, keyFind_cons, keyFind_cons]
      by_cases hkj : k = j
      · rw [if_pos hkj, if_pos hkj]
      · rw [if_neg hkj, if_neg hkj]
        exact ih

theorem keyUpdate_of_none {l : List (Nat × α)} {id : Nat}
    (h : ∀ p ∈ l, p.1 ≠ id) (a : α) : keyUpdate l id a = l := by
  induction l with
  | nil => rfl
  | cons hd tl ih =>
    obtain ⟨k, b⟩ := hd
    rw [keyUpdate_cons, if_neg (h (k, b) (by simp))]
    rw [ih fun p hp => h p (by simp [hp])]

theorem mem_keyUpdate {l : List (Nat × α)} {id : Nat} {a : α} {p : Nat × α}
    (h : p ∈ keyUpdate l id a) : p = (id, a) ∨ (p ∈ l ∧ p.1 ≠ id) := by
  induction l with
  | nil => simp [keyUpdate] at h
  | cons hd tl ih =>
    obtain ⟨k, b⟩ := hd
    rw [keyUpdate_cons] at h
    rcases List.mem_cons.mp h with h1 | h1
    · by_cases hk : k = id
      · rw [if_pos hk] at h1
        exact Or.inl h1
      · rw [if_neg hk] at h1
        exact Or.inr ⟨by simp [h1], by simp [h1, hk]⟩
    · rcases ih h1 with h2 | h2
      · exact Or.inl h2
      · exact Or.inr ⟨List.mem_cons_of_mem _ h2.1, h2.2⟩

theorem countP_keyUpdate {l : List (Nat × α)} {id : Nat} {b : α}
    (hnd : (l.map Prod.fst).Nodup) (hmem : (id, b) ∈ l) (a : α) (f : Nat × α → Bool) :
    (keyUpdate l id a).countP f + (if f (id, b) then 1 else 0) =
      l.countP f + (if f (id, a) then 1 else 0) := by
  induction l with
  | nil => simp at hmem
  | cons hd tl ih =>
    obtain ⟨k, c⟩ := hd
    rw [List.map_cons, List.nodup_cons] at hnd
    rw [keyUpdate_cons]
    by_cases hk : k = id
    · subst hk
      have hcb : c = b := by
        rcases List.mem_cons.mp hmem with h1 | h1
        · exact (Prod.mk.injEq .. ▸ h1.symm).2
        · exact absurd (List.mem_map.mpr ⟨(k, b), h1, rfl⟩) hnd.1
      subst hcb
      rw [if_pos rfl, keyUpdate_of_none (fun p hp hpk => hnd.1 (List.mem_map.mpr ⟨p, hp, hpk⟩)) a]
      rw [List.countP_cons, List.countP_cons]
      omega
    · have hmem' : (id, b) ∈ tl := by
        rcases List.mem_cons.mp hmem with h1 | h1
        · exact absurd (congrArg Prod.fst h1).symm hk
        · exact h1
      rw [if_neg hk, List.countP_cons, List.countP_cons]
      have := ih hnd.2 hmem'
      omega

theorem nodup_key_append {l : List (Nat × α)} {n : Nat}
    (hnd : (l.map Prod.fst).Nodup) (hlt : ∀ p ∈ l, p.1 < n) (a : α) :
    ((l ++ [(n, a)]).map Prod.fst).Nodup := by
  rw [List.map_append]
  refine List.Nodup.append hnd (List.nodup_singleton n) ?_
  intro x hx hx'
  rcases List.mem_map.mp hx with ⟨p, hp, hpx⟩
  rcases List.mem_singleton.mp hx' with rfl
  exact absurd (hpx ▸ hlt p hp) (lt_irrefl _)

end ListLemmas

section ShapeLemmas

theorem create_user_ok {s s' : LibState} {u e p r : String} {uid : Nat}
    (h : create_user s u e p r = .ok (uid, s')) :
    uid = s.nextUserId ∧
    s' = { s with users := s.users ++ [(s.nextUserId, ⟨u, e, p, r⟩)],
                  audit := s.audit ++ [⟨.user_created, "user", s.nextUserId, none⟩],
                  nextUserId := s.nextUserId + 1 } := by
  unfold create_user at h
  split at h
  · exact absurd h (by simp)
  split at h
  · exact absurd h (by simp)
  simp only [log_audit, Except.ok.injEq, Prod.mk.injEq] at h
  exact ⟨h.1.symm, h.2.symm⟩

theorem create_book_ok {s s' : LibState} {t a i : String} {bid : Nat}
    (h : create_book s t a i = .ok (bid, s')) :
    bid = s.nextBookId ∧
    s' = { s with books := s.books ++ [(s.nextBookId, ⟨t, a, i, 1, 1⟩)],
                  audit := s.audit ++ [⟨.book_created, "book", s.nextBookId, none⟩],
                  nextBookId := s.nextBookId + 1 } := by
  unfold create_book at h
  split at h
  · exact absurd h (by simp)
  split at h
  · exact absurd h (by simp)
  simp only [log_audit, Except.ok.injEq, Prod.mk.injEq] at h
  exact ⟨h.1.symm, h.2.symm⟩

theorem update_book_copies_ok {s s' : LibState} {bid : Nat} {n : Int}
    (h : update_book_copies s bid n = .ok s') :
    ∃ book, 0 ≤ n ∧ findBook s bid = some book ∧
      book.total_copies - book.available_copies ≤ n ∧
      s' = { s with
        books := keyUpdate s.books bid
          { book with
            available_copies := book.available_copies + (n - book.total_copies),
            total_copies := n },
        audit := s.audit ++ [⟨.book_updated, "book", bid, none⟩] } := by
  unfold update_book_copies at h
  simp only [] at h
  split at h
  · exact absurd h (by simp)
  next hn =>
  split at h
  · exact absurd h (by simp)
  next book hbook =>
  split at h
  · exact absurd h (by simp)
  next hloan =>
  simp only [log_audit, Except.ok.injEq] at h
  exact ⟨book, by omega, hbook, by omega, h.symm⟩

theorem create_loan_ok {s s' : LibState} {uid bid lid : Nat} {now : Time}
    (h : create_loan s uid bid now = .ok (lid, s')) :
    ∃ book, uid ≠ 0 ∧ bid ≠ 0 ∧ (findUser s uid).isSome ∧
      findBook s bid = some book ∧
      countActiveLoans s uid < 5 ∧ 0 < book.available_copies ∧
      lid = s.nextLoanId ∧
      s' = { s with
        books := keyUpdate s.books bid
          { book with available_copies := book.available_copies - 1 },
        loans := s.loans ++ [(s.nextLoanId, ⟨uid, bid, now, now + loanPeriod, none, 0⟩)],
        audit := s.audit ++ [⟨.loan_created, "loan", s.nextLoanId, some uid⟩],
        nextLoanId := s.nextLoanId + 1 } := by
  unfold create_loan at h
  simp only [] at h
  split at h
  · exact absurd h (by simp)
  next hz =>
  split at h
  · exact absurd h (by simp)
  next hu =>
  split at h
  · exact absurd h (by simp)
  next book hbook =>
  split at h
  · exact absurd h (by simp)
  next hcap =>
  split at h
  · exact absurd h (by simp)
  next hav =>
  simp only [log_audit, Except.ok.injEq, Prod.mk.injEq] at h
  refine ⟨book, fun hh => hz (Or.inl hh), fun hh => hz (Or.inr hh), ?_, hbook, by omega, by omega,
    h.1.symm, h.2.symm⟩
  rw [hu]
  rfl

theorem return_book_ok {s s' : LibState} {lid : Nat} {now : Time}
    (h : return_book s lid now = .ok s') :
    ∃ loan book, findLoan s lid = some loan ∧ loan.return_date = none ∧
      findBook s loan.book_id = some book ∧
      s' = (fun s2 => if 0 < (if loan.due_date < now then
               fineCents ((now - loan.due_date).toNat / 86400) else 0) then
             log_audit s2 .fine_calculated "loan" lid (some loan.user_id) else s2)
        { s with
          loans := keyUpdate s.loans lid
            { loan with return_date := some now,
                        fine := if loan.due_date < now then
                          fineCents ((now - loan.due_date).toNat / 86400) else loan.fine },
          books := keyUpdate s.books loan.book_id
            { book with available_copies := book.available_copies + 1 },
          audit := s.audit ++ [⟨.loan_returned, "loan", lid, some loan.user_id⟩] } := by
  unfold return_book at h
  simp only [] at h
  split at h
  · exact absurd h (by simp)
  next loan hloan =>
  split at h
  · exact absurd h (by simp)
  next hret =>
  split at h
  · exact absurd h (by simp)
  next book hbook =>
  simp only [log_audit, Except.ok.injEq] at h
  refine ⟨loan, book, hloan, Option.not_isSome_iff_eq_none.mp hret, hbook, ?_⟩
  rw [← h]
  by_cases hc : loan.due_date < now
  · simp [hc, log_audit]
  · simp [hc, log_audit]

theorem return_book_ok_parts {s s' : LibState} {lid : Nat} {now : Time}
    (h : return_book s lid now = .ok s') :
    ∃ loan book, findLoan s lid = some loan ∧ loan.return_date = none ∧
      findBook s loan.book_id = some book ∧
      s'.users = s.users ∧
      s'.books = keyUpdate s.books loan.book_id
        { book with available_copies := book.available_copies + 1 } ∧
      s'.loans = keyUpdate s.loans lid (returnedLoan loan now) ∧
      s'.audit = s.audit ++ [⟨.loan_returned, "loan", lid, some loan.user_id⟩] ++
        (if 0 < returnFine loan now then
          [⟨.fine_calculated, "loan", lid, some loan.user_id⟩] else []) ∧
      s'.nextUserId = s.nextUserId ∧ s'.nextBookId = s.nextBookId ∧
      s'.nextLoanId = s.nextLoanId := by
  obtain ⟨loan, book, h1, h2, h3, rfl⟩ := return_book_ok h
  refine ⟨loan, book, h1, h2, h3, ?_⟩
  by_cases hc : 0 < (if loan.due_date < now then
      fineCents ((now - loan.due_date).toNat / 86400) else 0)
  · simp [hc, log_audit, returnedLoan, returnFine]
  · simp [hc, log_audit, returnedLoan, returnFine]

theorem return_book_total {s : LibState} {lid : Nat} {now : Time} {loan : Loan}
    {book : Book} (hl : findLoan s lid = some loan) (hact : loan.return_date = none)
    (hb : findBook s loan.book_id = some book) :
    ∃ s', return_book s lid now = .ok s' := by
  unfold return_book
  rw [hl]
  simp only [hact, Option.isSome_none, Bool.false_eq_true, if_false]
  rw [hb]
  exact ⟨_, rfl⟩

end ShapeLemmas

section Preservation

theorem inv_create_user {s s' : LibState} {u e p r : String} {uid : Nat}
    (hs : Inv s) (h : create_user s u e p r = .ok (uid, s')) : Inv s' := by
  obtain ⟨-, rfl⟩ := create_user_ok h
  obtain ⟨h1, h2, h3, h4, h5, h6, h7⟩ := hs
  exact ⟨h1, h2, h3, h4, h5, h6, h7⟩

theorem inv_create_book {s s' : LibState} {t a i : String} {bid : Nat}
    (hs : Inv s) (h : create_book s t a i = .ok (bid, s')) : Inv s' := by
  obtain ⟨-, rfl⟩ := create_book_ok h
  obtain ⟨h1, h2, h3, h4, h5, h6, h7⟩ := hs
  refine ⟨nodup_key_append h1 h3 _, h2, ?_, h4, ?_, ?_, h7⟩
  · intro p hp
    rcases List.mem_append.mp hp with hp | hp
    · exact Nat.lt_succ_of_lt (h3 p hp)
    · rcases List.mem_singleton.mp hp with rfl
      exact Nat.lt_succ_self _
  · intro p hp
    exact Nat.lt_succ_of_lt (h5 p hp)
  · intro p hp
    rcases List.mem_append.mp hp with hp | hp
    · exact h6 p hp
    · rcases List.mem_singleton.mp hp with rfl
      refine ⟨by norm_num, ?_⟩
      have hzero : activeLoansForBook s.loans s.nextBookId = 0 := by
        rw [activeLoansForBook, List.countP_eq_zero]
        intro q hq
        simp only [Bool.and_eq_true, beq_iff_eq, not_and]
        intro hb
        exact absurd (hb ▸ h5 q hq) (lt_irrefl _)
      show (1 : Int) + (activeLoansForBook s.loans s.nextBookId : Int) = 1
      rw [hzero]
      norm_num

theorem inv_update_book_copies {s s' : LibState} {bid : Nat} {n : Int}
    (hs : Inv s) (h : update_book_copies s bid n = .ok s') : Inv s' := by
  obtain ⟨book, hn, hbook, hol, rfl⟩ := update_book_copies_ok h
  obtain ⟨h1, h2, h3, h4, h5, h6, h7⟩ := hs
  have hmem : (bid, book) ∈ s.books := keyFind_mem hbook
  refine ⟨?_, h2, ?_, h4, h5, ?_, h7⟩
  · show ((keyUpdate s.books bid _).map Prod.fst).Nodup
    rw [keyUpdate_map_fst]
    exact h1
  · intro p hp
    rcases mem_keyUpdate hp with rfl | ⟨hp, -⟩
    · exact h3 (bid, book) hmem
    · exact h3 p hp
  · intro p hp
    rcases mem_keyUpdate hp with rfl | ⟨hp, -⟩
    · have h6b : 0 ≤ book.available_copies ∧
          book.available_copies + (activeLoansForBook s.loans bid : Int) =
            book.total_copies := h6 (bid, book) hmem
      constructor
      · show (0 : Int) ≤ book.available_copies + (n - book.total_copies)
        omega
      · show book.available_copies + (n - book.total_copies) +
            (activeLoansForBook s.loans bid : Int) = n
        omega
    · exact h6 p hp

theorem inv_create_loan {s s' : LibState} {uid bid lid : Nat} {now : Time}
    (hs : Inv s) (h : create_loan s uid bid now = .ok (lid, s')) : Inv s' := by
  obtain ⟨book, -, -, -, hbook, hcap, hav, -, rfl⟩ := create_loan_ok h
  obtain ⟨h1, h2, h3, h4, h5, h6, h7⟩ := hs
  have hmem : (bid, book) ∈ s.books := keyFind_mem hbook
  refine ⟨?_, nodup_key_append h2 h4 _, ?_, ?_, ?_, ?_, ?_⟩
  · show ((keyUpdate s.books bid _).map Prod.fst).Nodup
    rw [keyUpdate_map_fst]
    exact h1
  · intro p hp
    rcases mem_keyUpdate hp with rfl | ⟨hp, -⟩
    · exact h3 (bid, book) hmem
    · exact h3 p hp
  · intro p hp
    rcases List.mem_append.mp hp with hp | hp
    · exact Nat.lt_succ_of_lt (h4 p hp)
    · rcases List.mem_singleton.mp hp with rfl
      exact Nat.lt_succ_self _
  · intro p hp
    rcases List.mem_append.mp hp with hp | hp
    · exact h5 p hp
    · rcases List.mem_singleton.mp hp with rfl
      exact h3 (bid, book) hmem
  · intro p hp
    have hsplit : ∀ j : Nat,
        activeLoansForBook (s.loans ++ [(s.nextLoanId,
          (⟨uid, bid, now, now + loanPeriod, none, 0⟩ : Loan))]) j =
        activeLoansForBook s.loans j + (if bid = j then 1 else 0) := by
      intro j
      rw [activeLoansForBook, activeLoansForBook, List.countP_append]
      by_cases hj : bid = j
      · simp [hj]
      · simp [hj]
    rcases mem_keyUpdate hp with rfl | ⟨hp, hne⟩
    · have h6b : 0 ≤ book.available_copies ∧
          book.available_copies + (activeLoansForBook s.loans bid : Int) =
            book.total_copies := h6 (bid, book) hmem
      refine ⟨?_, ?_⟩
      · show (0 : Int) ≤ book.available_copies - 1
        omega
      · show book.available_copies - 1 + (activeLoansForBook _ bid : Int) = book.total_copies
        rw [hsplit bid, if_pos rfl]
        push_cast
        omega
    · have := h6 p hp
      refine ⟨this.1, ?_⟩
      rw [hsplit p.1, if_neg (fun hh => hne hh.symm)]
      push_cast
      omega
  · intro u
    show (s.loans ++ [(s.nextLoanId,
        (⟨uid, bid, now, now + loanPeriod, none, 0⟩ : Loan))]).countP _ ≤ 5
    rw [List.countP_append]
    by_cases hu : uid = u
    · have : countActiveLoans s u < 5 := hu ▸ hcap
      rw [countActiveLoans] at this
      simp only [List.countP_cons, List.countP_nil]
      simp [hu]
      omega
    · have := h7 u
      rw [countActiveLoans] at this
      simp [hu]
      omega

theorem inv_return_book {s s' : LibState} {lid : Nat} {now : Time}
    (hs : Inv s) (h : return_book s lid now = .ok s') : Inv s' := by
  obtain ⟨loan, book, hloan, hact, hbook, -, hbooks, hloans, -, -, hnb, hnl⟩ :=
    return_book_ok_parts h
  obtain ⟨h1, h2, h3, h4, h5, h6, h7⟩ := hs
  have hmemb : (loan.book_id, book) ∈ s.books := keyFind_mem hbook
  have hmeml : (lid, loan) ∈ s.loans := keyFind_mem hloan
  have hcount : ∀ f : Nat × Loan → Bool,
      s'.loans.countP f + (if f (lid, loan) then 1 else 0) =
        s.loans.countP f + (if f (lid, returnedLoan loan now) then 1 else 0) := by
    intro f
    rw [hloans]
    exact countP_keyUpdate h2 hmeml _ f
  refine ⟨?_, ?_, ?_, ?_, ?_, ?_, ?_⟩
  · rw [hbooks]
    show ((keyUpdate s.books loan.book_id _).map Prod.fst).Nodup
    rw [keyUpdate_map_fst]
    exact h1
  · rw [hloans]
    show ((keyUpdate s.loans lid _).map Prod.fst).Nodup
    rw [keyUpdate_map_fst]
    exact h2
  · rw [hbooks, hnb]
    intro p hp
    rcases mem_keyUpdate hp with rfl | ⟨hp, -⟩
    · exact h3 (loan.book_id, book) hmemb
    · exact h3 p hp
  · rw [hloans, hnl]
    intro p hp
    rcases mem_keyUpdate hp with rfl | ⟨hp, -⟩
    · exact h4 (lid, loan) hmeml
    · exact h4 p hp
  · rw [hloans, hnb]
    intro p hp
    rcases mem_keyUpdate hp with rfl | ⟨hp, -⟩
    · exact h5 (lid, loan) hmeml
    · exact h5 p hp
  · rw [hbooks]
    intro p hp
    have hkey : ∀ j : Nat, activeLoansForBook s'.loans j +
        (if loan.book_id = j then 1 else 0) = activeLoansForBook s.loans j := by
      intro j
      have := hcount (fun q => q.2.book_id == j && q.2.return_date.isNone)
      simp only [returnedLoan, hact] at this
      by_cases hj : loan.book_id = j
      · simp only [hj] at this ⊢
        simpa [activeLoansForBook] using this
      · simp only [hj] at this ⊢
        simpa [activeLoansForBook, hj] using this
    rcases mem_keyUpdate hp with rfl | ⟨hp, hne⟩
    · have h6b : 0 ≤ book.available_copies ∧
          book.available_copies + (activeLoansForBook s.loans loan.book_id : Int) =
            book.total_copies := h6 (loan.book_id, book) hmemb
      have hk := hkey loan.book_id
      rw [if_pos rfl] at hk
      have hge : 1 ≤ activeLoansForBook s.loans loan.book_id := by omega
      refine ⟨?_, ?_⟩
      · show (0 : Int) ≤ book.available_copies + 1
        omega
      · show book.available_copies + 1 + (activeLoansForBook s'.loans loan.book_id : Int) =
            book.total_copies
        omega
    · have := h6 p hp
      have hk := hkey p.1
      rw [if_neg (fun hh => hne hh.symm)] at hk
      refine ⟨this.1, ?_⟩
      omega
  · intro u
    have := hcount (fun q => q.2.user_id == u && q.2.return_date.isNone)
    have h7u := h7 u
    rw [countActiveLoans] at h7u
    show s'.loans.countP _ ≤ 5
    simp only [returnedLoan, hact] at this
    by_cases hu : loan.user_id = u
    · simp [hu] at this
      omega
    · simp [hu] at this
      omega

theorem inv_step {s s' : LibState} (hs : Inv s) (h : Step s s') : Inv s' := by
  cases h with
  | user h => exact inv_create_user hs h
  | book h => exact inv_create_book hs h
  | resize h => exact inv_update_book_copies hs h
  | loan h => exact inv_create_loan hs h
  | ret h => exact inv_return_book hs h

theorem inv_init : Inv initState := by
  refine ⟨?_, ?_, ?_, ?_, ?_, ?_, ?_⟩ <;>
    simp [initState, countActiveLoans, activeLoansForBook]

theorem reachable_inv {s : LibState} (h : Reachable s) : Inv s := by
  induction h with
  | init => exact inv_init
  | step _ hstep ih => exact inv_step ih hstep

end Preservation

section Claims

/-- C1: for every loan finalized by `return_book`, if the return time is
strictly after the due date the stored fine is
`min(floor(days overdue) * 50, 2500)` cents, i.e. `min(days * $0.50, $25.00)`,
and otherwise the fine stays 0; in particular 5 whole days late gives
250 cents ($2.50) and 60 days late gives the 2500-cent cap ($25.00). -/
theorem returnLoan_fine_spec {s s' : LibState} {lid : Nat} {now : Time} {loan : Loan}
    (hl : findLoan s lid = some loan) (hfine0 : loan.fine = 0)
    (hok : return_book s lid now = .ok s') :
    (∃ loan', findLoan s' lid = some loan' ∧
      loan'.fine = (if loan.due_date < now then
        fineCents ((now - loan.due_date).toNat / 86400) else 0)) ∧
    fineCents 5 = 250 ∧ fineCents 60 = 2500 := by
  obtain ⟨loan0, book, hl0, -, -, -, -, hloans, -, -, -, -⟩ := return_book_ok_parts hok
  rw [hl] at hl0
  obtain rfl : loan = loan0 := Option.some_injective _ hl0
  refine ⟨⟨returnedLoan loan now, ?_, ?_⟩, by decide, by decide⟩
  · show keyFind s'.loans lid = some (returnedLoan loan now)
    rw [hloans]
    exact keyFind_keyUpdate_self hl _
  · simp [returnedLoan, hfine0]

theorem returnLoan_fine_spec_witness :
    findLoan exStateL 1 = some ⟨1, 1, 0, 1209600, none, 0⟩ ∧
    (⟨1, 1, 0, 1209600, none, 0⟩ : Loan).fine = 0 ∧
    return_book exStateL 1 1641600 = .ok exStateLR ∧
    ((∃ loan', findLoan exStateLR 1 = some loan' ∧
        loan'.fine = (if (1209600 : Int) < 1641600 then
          fineCents ((1641600 - 1209600 : Int).toNat / 86400) else 0)) ∧
      fineCents 5 = 250 ∧ fineCents 60 = 2500) :=
  ⟨by decide, by decide, rfl,
    @returnLoan_fine_spec exStateL exStateLR 1 1641600 ⟨1, 1, 0, 1209600, none, 0⟩
      (by decide) (by decide) rfl⟩

/-- C2: in every reachable database state — hence after every sequence of
`create_book`, `update_book_copies`, `create_loan`, `return_book` (and
`create_user`) operations — every book row satisfies
`0 ≤ available_copies ≤ total_copies`. -/
theorem books_copies_in_range {s : LibState} (h : Reachable s) :
    ∀ p ∈ s.books, 0 ≤ p.2.available_copies ∧
      p.2.available_copies ≤ p.2.total_copies := by
  obtain ⟨-, -, -, -, -, h6, -⟩ := reachable_inv h
  intro p hp
  have hb := h6 p hp
  have hn : (0 : Int) ≤ (activeLoansForBook s.loans p.1 : Int) := Int.natCast_nonneg _
  exact ⟨hb.1, by omega⟩

theorem books_copies_in_range_witness :
    Reachable exStateB ∧
    (∀ p ∈ exStateB.books, 0 ≤ p.2.available_copies ∧
      p.2.available_copies ≤ p.2.total_copies) := by
  have h1 : create_user initState "alice" "alice@example.com" "555" "patron" =
      .ok (1, exStateU) := rfl
  have h2 : create_book exStateU "Dune" "Herbert" "isbn-1" = .ok (1, exStateB) := rfl
  have hr : Reachable exStateB :=
    Reachable.step (Reachable.step Reachable.init (Step.user h1)) (Step.book h2)
  exact ⟨hr, books_copies_in_range hr⟩

/-- C3: `update_book_copies` fails with a validation error when the new
total is negative; with not-found when the book is absent; with a validation
error when the new total is below the copies currently on loan
(`total_copies - available_copies`); and otherwise succeeds, shifting
`available_copies` by `newTotal - total_copies` and setting `total_copies`
to `newTotal`. -/
theorem resizeCopies_spec (s : LibState) (bid : Nat) (n : Int) :
    (n < 0 →
      update_book_copies s bid n = .error (.validation "Total copies cannot be negative")) ∧
    (0 ≤ n → findBook s bid = none →
      update_book_copies s bid n = .error (.notFound "book")) ∧
    (∀ book, 0 ≤ n → findBook s bid = some book →
      n < book.total_copies - book.available_copies →
      update_book_copies s bid n =
        .error (.validation "Total copies cannot be less than copies on loan")) ∧
    (∀ book, 0 ≤ n → findBook s bid = some book →
      book.total_copies - book.available_copies ≤ n →
      ∃ s', update_book_copies s bid n = .ok s' ∧
        findBook s' bid = some { book with
          available_copies := book.available_copies + (n - book.total_copies),
          total_copies := n }) := by
  refine ⟨?_, ?_, ?_, ?_⟩
  · intro hn
    unfold update_book_copies
    rw [if_pos hn]
  · intro hn hnone
    unfold update_book_copies
    rw [if_neg (by omega), hnone]
  · intro book hn hbook hlt
    unfold update_book_copies
    rw [if_neg (by omega), hbook]
    simp only []
    rw [if_pos hlt]
  · intro book hn hbook hge
    unfold update_book_copies
    rw [if_neg (by omega), hbook]
    simp only []
    rw [if_neg (by omega)]
    refine ⟨_, rfl, ?_⟩
    show keyFind (keyUpdate s.books bid _) bid = some _
    exact keyFind_keyUpdate_self hbook _

theorem resizeCopies_spec_witness :
    ((0 : Int) ≤ 1) ∧
    findBook resizeState 1 = some ⟨"Dune", "Herbert", "isbn-1", 3, 2⟩ ∧
    ((⟨"Dune", "Herbert", "isbn-1", 3, 2⟩ : Book).total_copies -
      (⟨"Dune", "Herbert", "isbn-1", 3, 2⟩ : Book).available_copies ≤ 1) ∧
    (∃ s', update_book_copies resizeState 1 1 = .ok s' ∧
      findBook s' 1 = some ⟨"Dune", "Herbert", "isbn-1", 1, 0⟩) ∧
    ((0 : Int) ≤ 0) ∧
    ((0 : Int) < (⟨"Dune", "Herbert", "isbn-1", 3, 2⟩ : Book).total_copies -
      (⟨"Dune", "Herbert", "isbn-1", 3, 2⟩ : Book).available_copies) ∧
    update_book_copies resizeState 1 0 =
      .error (.validation "Total copies cannot be less than copies on loan") :=
  ⟨by decide, by decide, by decide,
    (resizeCopies_spec resizeState 1 1).2.2.2 ⟨"Dune", "Herbert", "isbn-1", 3, 2⟩
      (by decide) (by decide) (by decide),
    by decide, by decide,
    (resizeCopies_spec resizeState 1 0).2.2.1 ⟨"Dune", "Herbert", "isbn-1", 3, 2⟩
      (by decide) (by decide) (by decide)⟩

/-- C4: `create_book` fails with a validation error when title, author or
isbn is empty; fails with a conflict (the unique-isbn column) when a book
with the same isbn is already present; and on success inserts a book row
with `total_copies = available_copies = 1` under the fresh id. -/
theorem addBook_spec (s : LibState) (t a i : String) :
    ((t = "" ∨ a = "" ∨ i = "") →
      create_book s t a i = .error (.validation "Missing required fields")) ∧
    (¬(t = "" ∨ a = "" ∨ i = "") → (∃ p ∈ s.books, p.2.isbn = i) →
      create_book s t a i = .error (.conflict "duplicate isbn")) ∧
    (¬(t = "" ∨ a = "" ∨ i = "") → (∀ p ∈ s.books, p.2.isbn ≠ i) →
      ∃ s', create_book s t a i = .ok (s.nextBookId, s') ∧
        s'.books = s.books ++ [(s.nextBookId, ⟨t, a, i, 1, 1⟩)]) := by
  refine ⟨?_, ?_, ?_⟩
  · intro hempty
    unfold create_book
    rw [if_pos hempty]
  · intro hne hdup
    unfold create_book
    rw [if_neg hne, if_pos ?_]
    obtain ⟨p, hp, hi⟩ := hdup
    exact List.any_eq_true.mpr ⟨p, hp, beq_iff_eq.mpr hi⟩
  · intro hne hnodup
    unfold create_book
    rw [if_neg hne, if_neg ?_]
    · exact ⟨_, rfl, rfl⟩
    · intro hany
      obtain ⟨p, hp, hi⟩ := List.any_eq_true.mp hany
      exact hnodup p hp (beq_iff_eq.mp hi)

theorem addBook_spec_witness :
    (("" : String) = "" ∨ ("Herbert" : String) = "" ∨ ("isbn-9" : String) = "") ∧
    create_book exStateB "" "Herbert" "isbn-9" =
      .error (.validation "Missing required fields") ∧
    ¬(("Solaris" : String) = "" ∨ ("Lem" : String) = "" ∨ ("isbn-1" : String) = "") ∧
    (∃ p ∈ exStateB.books, p.2.isbn = "isbn-1") ∧
    create_book exStateB "Solaris" "Lem" "isbn-1" = .error (.conflict "duplicate isbn") ∧
    ¬(("Solaris" : String) = "" ∨ ("Lem" : String) = "" ∨ ("isbn-2" : String) = "") ∧
    (∀ p ∈ exStateB.books, p.2.isbn ≠ "isbn-2") ∧
    (∃ s', create_book exStateB "Solaris" "Lem" "isbn-2" = .ok (exStateB.nextBookId, s') ∧
      s'.books = exStateB.books ++ [(exStateB.nextBookId, ⟨"Solaris", "Lem", "isbn-2", 1, 1⟩)]) :=
  ⟨by decide,
    (addBook_spec exStateB "" "Herbert" "isbn-9").1 (by decide),
    by decide, by decide,
    (addBook_spec exStateB "Solaris" "Lem" "isbn-1").2.1 (by decide) (by decide),
    by decide, by decide,
    (addBook_spec exStateB "Solaris" "Lem" "isbn-2").2.2 (by decide) (by decide)⟩

/-- C5 counterexample: the claim asserts the increment never raises
`available_copies` above `total_copies` even from a state where they are
already equal; but `return_book` has no clamp, so from `overState` (book 1
has `available_copies = total_copies = 1` while loan 1 is still active) the
return leaves `available_copies = 2 > total_copies = 1`. -/
theorem releaseCopy_clamp_counterexample :
    findBook overState 1 = some ⟨"Dune", "Herbert", "isbn-1", 1, 1⟩ ∧
    return_book overState 1 0 = .ok overStateR ∧
    findBook overStateR 1 = some ⟨"Dune", "Herbert", "isbn-1", 1, 2⟩ ∧
    ¬((⟨"Dune", "Herbert", "isbn-1", 1, 2⟩ : Book).available_copies ≤
      (⟨"Dune", "Herbert", "isbn-1", 1, 2⟩ : Book).total_copies) :=
  ⟨by decide, rfl, by decide, by decide⟩

/-- C5 amended: the copy increment performed by `return_book` adds exactly 1
to the book's `available_copies` with no clamp; the post-state satisfies
`available_copies ≤ total_copies` provided `available_copies < total_copies`
held before the call (which is the case in every reachable state, where an
active loan on the book witnesses a reserved copy). -/
theorem releaseCopy_increment {s s' : LibState} {lid : Nat} {now : Time}
    (hok : return_book s lid now = .ok s') :
    ∃ loan book book', findLoan s lid = some loan ∧
      findBook s loan.book_id = some book ∧
      findBook s' loan.book_id = some book' ∧
      book'.available_copies = book.available_copies + 1 ∧
      book'.total_copies = book.total_copies ∧
      (book.available_copies < book.total_copies →
        book'.available_copies ≤ book.total_copies) := by
  obtain ⟨loan, book, hl, -, hb, -, hbooks, -, -, -, -, -⟩ := return_book_ok_parts hok
  refine ⟨loan, book, { book with available_copies := book.available_copies + 1 },
    hl, hb, ?_, rfl, rfl, ?_⟩
  · show keyFind s'.books loan.book_id = some _
    rw [hbooks]
    exact keyFind_keyUpdate_self hb _
  · intro hlt
    show book.available_copies + 1 ≤ book.total_copies
    omega

theorem releaseCopy_increment_witness :
    return_book exStateL 1 1641600 = .ok exStateLR ∧
    (∃ loan book book', findLoan exStateL 1 = some loan ∧
      findBook exStateL loan.book_id = some book ∧
      findBook exStateLR loan.book_id = some book' ∧
      book'.available_copies = book.available_copies + 1 ∧
      book'.total_copies = book.total_copies ∧
      (book.available_copies < book.total_copies →
        book'.available_copies ≤ book.total_copies)) :=
  ⟨rfl, @releaseCopy_increment exStateL exStateLR 1 1641600 rfl⟩

/-- C6: after the user and book existence checks pass, `create_loan` fails
with the loan-limit error, carrying the user's current active-loan count and
the limit 5, exactly when the user already has 5 or more active loans; and
`countActiveLoans ≤ 5` holds before (reachable state) and after every
`create_loan`. -/
theorem createLoan_limit {s : LibState} {uid bid : Nat} (now : Time)
    (hreach : Reachable s) (hu0 : uid ≠ 0) (hb0 : bid ≠ 0)
    (hu : (findUser s uid).isSome) (hb : (findBook s bid).isSome) :
    ((∃ c, create_loan s uid bid now = .error (.loanLimit c 5)) ↔
      5 ≤ countActiveLoans s uid) ∧
    (∀ c, create_loan s uid bid now = .error (.loanLimit c 5) →
      c = countActiveLoans s uid) ∧
    countActiveLoans s uid ≤ 5 ∧
    (∀ lid s', create_loan s uid bid now = .ok (lid, s') →
      countActiveLoans s' uid ≤ 5) := by
  obtain ⟨u, hu⟩ := Option.isSome_iff_exists.mp hu
  obtain ⟨book, hb⟩ := Option.isSome_iff_exists.mp hb
  have hpre : countActiveLoans s uid ≤ 5 := (reachable_inv hreach).2.2.2.2.2.2 uid
  have hshape : create_loan s uid bid now =
      (if countActiveLoans s uid ≥ 5 then
        .error (.loanLimit (countActiveLoans s uid) 5)
      else if book.available_copies ≤ 0 then
        .error (.noCopies 0 book.total_copies)
      else
        .ok (s.nextLoanId, log_audit
          ⟨s.users,
           keyUpdate s.books bid
             ⟨book.title, book.author, book.isbn, book.total_copies,
              book.available_copies - 1⟩,
           s.loans ++ [(s.nextLoanId, ⟨uid, bid, now, now + loanPeriod, none, 0⟩)],
           s.audit, s.nextUserId, s.nextBookId, s.nextLoanId + 1⟩
          .loan_created "loan" s.nextLoanId (some uid))) := by
    unfold create_loan
    rw [if_neg (by tauto), hu, hb]
  refine ⟨⟨?_, ?_⟩, ?_, hpre, ?_⟩
  · intro ⟨c, hc⟩
    rw [hshape] at hc
    by_cases hge : countActiveLoans s uid ≥ 5
    · exact hge
    · rw [if_neg hge] at hc
      by_cases hav : book.available_copies ≤ 0
      · rw [if_pos hav] at hc
        cases hc
      · rw [if_neg hav] at hc
        cases hc
  · intro hge
    exact ⟨countActiveLoans s uid, by rw [hshape, if_pos hge]⟩
  · intro c hc
    rw [hshape] at hc
    by_cases hge : countActiveLoans s uid ≥ 5
    · rw [if_pos hge] at hc
      cases hc
      rfl
    · rw [if_neg hge] at hc
      by_cases hav : book.available_copies ≤ 0
      · rw [if_pos hav] at hc
        cases hc
      · rw [if_neg hav] at hc
        cases hc
  · intro lid s' hok
    obtain ⟨book0, -, -, -, -, hcap, -, -, rfl⟩ := create_loan_ok hok
    show (s.loans ++ [(s.nextLoanId, (⟨uid, bid, now, now + loanPeriod, none, 0⟩ : Loan))]).countP _ ≤ 5
    rw [List.countP_append]
    rw [countActiveLoans] at hcap
    simp
    omega

theorem createLoan_limit_witness :
    Reachable exStateB ∧ (1 : Nat) ≠ 0 ∧
    (findUser exStateB 1).isSome ∧ (findBook exStateB 1).isSome ∧
    (((∃ c, create_loan exStateB 1 1 0 = .error (.loanLimit c 5)) ↔
        5 ≤ countActiveLoans exStateB 1) ∧
      (∀ c, create_loan exStateB 1 1 0 = .error (.loanLimit c 5) →
        c = countActiveLoans exStateB 1) ∧
      countActiveLoans exStateB 1 ≤ 5 ∧
      (∀ lid s', create_loan exStateB 1 1 0 = .ok (lid, s') →
        countActiveLoans s' 1 ≤ 5)) := by
  have h1 : create_user initState "alice" "alice@example.com" "555" "patron" =
      .ok (1, exStateU) := rfl
  have h2 : create_book exStateU "Dune" "Herbert" "isbn-1" = .ok (1, exStateB) := rfl
  have hr : Reachable exStateB :=
    Reachable.step (Reachable.step Reachable.init (Step.user h1)) (Step.book h2)
  exact ⟨hr, by decide, by decide, by decide,
    createLoan_limit 0 hr (by decide) (by decide) (by decide) (by decide)⟩

/-- C7: returning the same loan twice succeeds the first time and fails with
the already-returned error the second time, and the book's
`available_copies` is incremented exactly once across the two calls. The
guard fires before any mutation, and an error response carries no state
(nothing is committed), so the second call leaves the database unchanged;
a returned loan is terminal. -/
theorem returnLoan_idempotence_guard {s : LibState} {lid : Nat} {now now2 : Time}
    {loan : Loan} {book : Book}
    (hl : findLoan s lid = some loan) (hact : loan.return_date = none)
    (hb : findBook s loan.book_id = some book) :
    ∃ s', return_book s lid now = .ok s' ∧
      return_book s' lid now2 = .error (.alreadyReturned lid) ∧
      ∃ book', findBook s' loan.book_id = some book' ∧
        book'.available_copies = book.available_copies + 1 := by
  obtain ⟨s', hok⟩ := @return_book_total s lid now loan book hl hact hb
  obtain ⟨loan0, book0, hl0, -, hb0, -, hbooks, hloans, -, -, -, -⟩ :=
    return_book_ok_parts hok
  rw [hl] at hl0
  obtain rfl : loan = loan0 := Option.some_injective _ hl0
  rw [hb] at hb0
  obtain rfl : book = book0 := Option.some_injective _ hb0
  have hl' : findLoan s' lid = some (returnedLoan loan now) := by
    show keyFind s'.loans lid = some _
    rw [hloans]
    exact keyFind_keyUpdate_self hl _
  refine ⟨s', hok, ?_, ⟨{ book with available_copies := book.available_copies + 1 },
    ?_, rfl⟩⟩
  · unfold return_book
    rw [hl']
    simp [returnedLoan]
  · show keyFind s'.books loan.book_id = some _
    rw [hbooks]
    exact keyFind_keyUpdate_self hb _

theorem returnLoan_idempotence_guard_witness :
    findLoan exStateL 1 = some ⟨1, 1, 0, 1209600, none, 0⟩ ∧
    (⟨1, 1, 0, 1209600, none, 0⟩ : Loan).return_date = none ∧
    findBook exStateL (⟨1, 1, 0, 1209600, none, 0⟩ : Loan).book_id =
      some ⟨"Dune", "Herbert", "isbn-1", 1, 0⟩ ∧
    (∃ s', return_book exStateL 1 1641600 = .ok s' ∧
      return_book s' 1 1700000 = .error (.alreadyReturned 1) ∧
      ∃ book', findBook s' (⟨1, 1, 0, 1209600, none, 0⟩ : Loan).book_id = some book' ∧
        book'.available_copies =
          (⟨"Dune", "Herbert", "isbn-1", 1, 0⟩ : Book).available_copies + 1) :=
  ⟨by decide, by decide, by decide,
    @returnLoan_idempotence_guard exStateL 1 1641600 1700000
      ⟨1, 1, 0, 1209600, none, 0⟩ ⟨"Dune", "Herbert", "isbn-1", 1, 0⟩
      (by decide) (by decide) (by decide)⟩

/-- C8: when `create_loan u b` succeeds from a reachable state, a subsequent
successful `return_book` of the created loan restores the book's
`available_copies` to its value before the loan was created. -/
theorem loan_roundtrip {s s' : LibState} {uid bid lid : Nat} {now now2 : Time}
    {book : Book} (hreach : Reachable s) (hb : findBook s bid = some book)
    (hok : create_loan s uid bid now = .ok (lid, s')) :
    ∃ s'' book', return_book s' lid now2 = .ok s'' ∧
      findBook s'' bid = some book' ∧
      book'.available_copies = book.available_copies := by
  obtain ⟨-, -, -, hfresh, -, -, -⟩ := reachable_inv hreach
  obtain ⟨book0, -, -, -, hb0, -, -, hlid, rfl⟩ := create_loan_ok hok
  rw [hb] at hb0
  obtain rfl : book = book0 := Option.some_injective _ hb0
  have hnewloan : findLoan
      { s with
        books := keyUpdate s.books bid
          { book with available_copies := book.available_copies - 1 },
        loans := s.loans ++ [(s.nextLoanId, ⟨uid, bid, now, now + loanPeriod, none, 0⟩)],
        audit := s.audit ++ [⟨.loan_created, "loan", s.nextLoanId, some uid⟩],
        nextLoanId := s.nextLoanId + 1 } s.nextLoanId =
      some ⟨uid, bid, now, now + loanPeriod, none, 0⟩ := by
    show keyFind (s.loans ++ [(s.nextLoanId, _)]) s.nextLoanId = _
    rw [keyFind_append_right (keyFind_eq_none fun p hp => Nat.ne_of_lt (hfresh p hp)),
      keyFind_cons, if_pos rfl]
  have hnewbook : findBook
      { s with
        books := keyUpdate s.books bid
          { book with available_copies := book.available_copies - 1 },
        loans := s.loans ++ [(s.nextLoanId, ⟨uid, bid, now, now + loanPeriod, none, 0⟩)],
        audit := s.audit ++ [⟨.loan_created, "loan", s.nextLoanId, some uid⟩],
        nextLoanId := s.nextLoanId + 1 } bid =
      some { book with available_copies := book.available_copies - 1 } := by
    show keyFind (keyUpdate s.books bid _) bid = _
    exact keyFind_keyUpdate_self hb _
  subst hlid
  obtain ⟨s'', hok2⟩ := @return_book_total _ s.nextLoanId now2
    ⟨uid, bid, now, now + loanPeriod, none, 0⟩ _ hnewloan rfl hnewbook
  obtain ⟨loan1, book1, hl1, -, hb1, -, hbooks2, -, -, -, -, -⟩ :=
    return_book_ok_parts hok2
  rw [hnewloan] at hl1
  obtain rfl : (⟨uid, bid, now, now + loanPeriod, none, 0⟩ : Loan) = loan1 :=
    Option.some_injective _ hl1
  rw [hnewbook] at hb1
  obtain rfl : { book with available_copies := book.available_copies - 1 } = book1 :=
    Option.some_injective _ hb1
  refine ⟨s'', { book with available_copies := book.available_copies - 1 + 1 }, hok2, ?_, ?_⟩
  · show keyFind s''.books bid = some _
    rw [hbooks2]
    exact keyFind_keyUpdate_self hnewbook _
  · show book.available_copies - 1 + 1 = book.available_copies
    omega

theorem loan_roundtrip_witness :
    Reachable exStateB ∧
    findBook exStateB 1 = some ⟨"Dune", "Herbert", "isbn-1", 1, 1⟩ ∧
    create_loan exStateB 1 1 0 = .ok (1, exStateL) ∧
    (∃ s'' book', return_book exStateL 1 0 = .ok s'' ∧
      findBook s'' 1 = some book' ∧
      book'.available_copies =
        (⟨"Dune", "Herbert", "isbn-1", 1, 1⟩ : Book).available_copies) := by
  have h1 : create_user initState "alice" "alice@example.com" "555" "patron" =
      .ok (1, exStateU) := rfl
  have h2 : create_book exStateU "Dune" "Herbert" "isbn-1" = .ok (1, exStateB) := rfl
  have hr : Reachable exStateB :=
    Reachable.step (Reachable.step Reachable.init (Step.user h1)) (Step.book h2)
  exact ⟨hr, by decide, rfl,
    @loan_roundtrip exStateB exStateL 1 1 1 0 0 ⟨"Dune", "Herbert", "isbn-1", 1, 1⟩
      hr (by decide) rfl⟩

/-- C9 counterexample: loan 1 of `lateState` is returned one hour past its
due date — so it is overdue — yet the successful `return_book` appends
exactly one audit entry (`days_overdue = 0`, fine 0, so no second
`fine_calculated` entry), not two as the claim requires for overdue loans. -/
theorem returnLoan_audit_counterexample :
    findLoan lateState 1 = some ⟨1, 1, -1209600, 0, none, 0⟩ ∧
    (⟨1, 1, -1209600, 0, none, 0⟩ : Loan).due_date < (3600 : Int) ∧
    return_book lateState 1 3600 = .ok lateStateR ∧
    lateState.audit.length = 0 ∧ lateStateR.audit.length = 1 ∧
    ¬(lateStateR.audit.length = lateState.audit.length + 2) :=
  ⟨by decide, by decide, rfl, rfl, rfl, by decide⟩

/-- C9 amended: every successful `create_loan` appends exactly one audit
entry, with `entity_id` the new loan's id; every successful `return_book`
appends exactly one `loan_returned` entry, plus a second `fine_calculated`
entry exactly when the computed fine is positive (i.e. the loan is at least
one full day overdue — merely being past due yields fine 0 and a single
entry), each with `entity_id` the loan's id. -/
theorem audit_entries_per_op (s : LibState) :
    (∀ uid bid now lid s', create_loan s uid bid now = .ok (lid, s') →
      s'.audit = s.audit ++ [⟨.loan_created, "loan", lid, some uid⟩]) ∧
    (∀ lid now s' loan, findLoan s lid = some loan →
      return_book s lid now = .ok s' →
      s'.audit = s.audit ++ [⟨.loan_returned, "loan", lid, some loan.user_id⟩] ++
        (if 0 < returnFine loan now then
          [⟨.fine_calculated, "loan", lid, some loan.user_id⟩] else [])) := by
  constructor
  · intro uid bid now lid s' hok
    obtain ⟨book, -, -, -, -, -, -, hlid, rfl⟩ := create_loan_ok hok
    subst hlid
    rfl
  · intro lid now s' loan hl hok
    obtain ⟨loan0, book, hl0, -, -, -, -, -, haudit, -, -, -⟩ := return_book_ok_parts hok
    rw [hl] at hl0
    obtain rfl : loan = loan0 := Option.some_injective _ hl0
    exact haudit

theorem audit_entries_per_op_witness :
    create_loan exStateB 1 1 0 = .ok (1, exStateL) ∧
    exStateL.audit = exStateB.audit ++ [⟨.loan_created, "loan", 1, some 1⟩] ∧
    findLoan exStateL 1 = some ⟨1, 1, 0, 1209600, none, 0⟩ ∧
    return_book exStateL 1 1641600 = .ok exStateLR ∧
    exStateLR.audit = exStateL.audit ++ [⟨.loan_returned, "loan", 1, some 1⟩] ++
      (if 0 < returnFine ⟨1, 1, 0, 1209600, none, 0⟩ 1641600 then
        [⟨.fine_calculated, "loan", 1, some 1⟩] else []) :=
  ⟨rfl, (audit_entries_per_op exStateB).1 1 1 0 1 exStateL rfl,
   by decide, rfl,
   (audit_entries_per_op exStateL).2 1 1641600 exStateLR
     ⟨1, 1, 0, 1209600, none, 0⟩ (by decide) rfl⟩

/-- C10: for a loan whose `return_date` is set, `get_loan` reports
`is_overdue = false`, `days_overdue = 0` and `current_fine` equal to the
loan's persisted fine, whatever the relation between its return, due and
query times (so also when it was returned after its due date); the live
fine preview is computed only when `return_date` is null (and the due date
has passed). -/
theorem getLoan_returned_view {s : LibState} {lid : Nat} (now : Time) {loan : Loan}
    (hl : findLoan s lid = some loan) :
    (∀ r, loan.return_date = some r →
      ∃ v, get_loan s lid now = .ok v ∧ v.is_overdue = false ∧
        v.days_overdue = 0 ∧ v.current_fine = loan.fine ∧ v.is_returned = true) ∧
    (loan.return_date = none → loan.due_date < now →
      ∃ v, get_loan s lid now = .ok v ∧ v.is_overdue = true ∧
        v.current_fine = fineCents ((now - loan.due_date).toNat / 86400)) := by
  constructor
  · intro r hr
    unfold get_loan
    rw [hl]
    simp only []
    rw [if_neg (by simp [hr])]
    exact ⟨_, rfl, rfl, rfl, rfl, by simp [hr]⟩
  · intro hnone hdue
    unfold get_loan
    rw [hl]
    simp only []
    rw [if_pos ⟨hnone, hdue⟩]
    exact ⟨_, rfl, rfl, rfl⟩

theorem getLoan_returned_view_witness :
    findLoan exStateLR 1 = some ⟨1, 1, 0, 1209600, some 1641600, 250⟩ ∧
    (⟨1, 1, 0, 1209600, some 1641600, 250⟩ : Loan).return_date = some 1641600 ∧
    ((1209600 : Int) < 1641600) ∧
    (∃ v, get_loan exStateLR 1 2000000 = .ok v ∧ v.is_overdue = false ∧
      v.days_overdue = 0 ∧
      v.current_fine = (⟨1, 1, 0, 1209600, some 1641600, 250⟩ : Loan).fine ∧
      v.is_returned = true) ∧
    findLoan exStateL 1 = some ⟨1, 1, 0, 1209600, none, 0⟩ ∧
    (∃ v, get_loan exStateL 1 2000000 = .ok v ∧ v.is_overdue = true ∧
      v.current_fine = fineCents ((2000000 - (1209600 : Int)).toNat / 86400)) :=
  ⟨by decide, by decide, by decide,
   (@getLoan_returned_view exStateLR 1 2000000 ⟨1, 1, 0, 1209600, some 1641600, 250⟩
     (by decide)).1 1641600 (by decide),
   by decide,
   (@getLoan_returned_view exStateL 1 2000000 ⟨1, 1, 0, 1209600, none, 0⟩
     (by decide)).2 (by decide) (by decide)⟩

end Claims

end Library
